import Mathlib

/-!
Verification development for the tig-benchmarker submissions manager
(tig_benchmarker/extensions/submissions_manager.py).

The Python extension keeps three queues of pending submissions
(precommit, benchmark, proof), persists benchmark/proof submissions as
JSON files in a backup folder, prunes the queues on each new block and
drains at most one item per category on each update tick, re-enqueueing
on retryable (HTTP 5xx) failures subject to a retry cap.

The embedding below models the extension state as a pure record, each
event handler as a pure state transition, and file I/O as an explicit
association list from path strings to JSON values.  Python ints are
modelled as Lean Int (they are unbounded), epoch-millisecond times as
Int, and the Union request type as a closed inductive.
-/

namespace TigSubmissions

/-- A JSON value, the serialized form of requests written to and read
from the backup folder. -/
inductive Json where
  | str (s : String)
  | int (n : Int)
  | arr (xs : List Json)
  | obj (fields : List (String × Json))

/-- Modelled from the spec: the settings descriptor of a precommit is an
"opaque structured value" (the concrete dataclass lives in structs.py,
outside the provided sources), so it is modelled as its JSON form. -/
abbrev BenchmarkSettings := Json

/-- Modelled from the spec: a Merkle root is a "fixed-size hash value";
modelled as its string form. -/
abbrev MerkleHash := String

/-- Modelled from the spec: a Merkle proof is an opaque "Merkle proof
structure"; modelled as its JSON form. -/
abbrev MerkleProof := Json

/-- Field lookup on a JSON object, as the FromDict machinery does. -/
def Json.get : Json → String → Option Json
  | .obj fields, key => fields.lookup key
  | _, _ => none

def Json.asStr : Json → Option String
  | .str s => some s
  | _ => none

def Json.asInt : Json → Option Int
  | .int n => some n
  | _ => none

def Json.asArr : Json → Option (List Json)
  | .arr xs => some xs
  | _ => none

/-- Element-wise integer parsing of a JSON array's contents, failing on
the first non-integer element. -/
def parseInts : List Json → Option (List Int)
  | [] => some []
  | x :: xs => (x.asInt).bind fun n => (parseInts xs).map fun ns => n :: ns

/-- dataclass SubmitPrecommitRequest (submissions_manager.py lines 12-15). -/
structure SubmitPrecommitRequest where
  settings : BenchmarkSettings
  num_nonces : Int

/-- dataclass SubmitBenchmarkRequest (lines 17-21).  Python's Set[int] is
modelled as the list of its elements in serialization order. -/
structure SubmitBenchmarkRequest where
  benchmark_id : String
  merkle_root : MerkleHash
  solution_nonces : List Int

/-- dataclass SubmitProofRequest (lines 23-26). -/
structure SubmitProofRequest where
  benchmark_id : String
  merkle_proofs : List MerkleProof

/-- The Union[SubmitPrecommitRequest, SubmitBenchmarkRequest,
SubmitProofRequest] type of PendingSubmission.request (line 38). -/
inductive SubmissionRequest where
  | precommit (r : SubmitPrecommitRequest)
  | benchmark (r : SubmitBenchmarkRequest)
  | proof (r : SubmitProofRequest)

/-- Python attribute access request.benchmark_id: defined on benchmark
and proof requests only (precommit requests have no such attribute). -/
def SubmissionRequest.benchmarkId? : SubmissionRequest → Option String
  | .benchmark r => some r.benchmark_id
  | .proof r => some r.benchmark_id
  | .precommit _ => none

/-- Modelled from the spec: canonical serialization of a benchmark
request ("canonical serialization of the corresponding request
variant"); field-by-field JSON object, as dataclass to_dict produces. -/
def SubmitBenchmarkRequest.to_dict (r : SubmitBenchmarkRequest) : Json :=
  .obj [("benchmark_id", .str r.benchmark_id),
        ("merkle_root", .str r.merkle_root),
        ("solution_nonces", .arr (r.solution_nonces.map .int))]

/-- Modelled from the spec: canonical serialization of a proof request. -/
def SubmitProofRequest.to_dict (r : SubmitProofRequest) : Json :=
  .obj [("benchmark_id", .str r.benchmark_id),
        ("merkle_proofs", .arr r.merkle_proofs)]

/-- Modelled from the spec: canonical serialization of a precommit
request (never persisted; used only as the POST body). -/
def SubmitPrecommitRequest.to_dict (r : SubmitPrecommitRequest) : Json :=
  .obj [("settings", r.settings),
        ("num_nonces", .int r.num_nonces)]

def SubmissionRequest.to_dict : SubmissionRequest → Json
  | .precommit r => r.to_dict
  | .benchmark r => r.to_dict
  | .proof r => r.to_dict

/-- Modelled from the spec: FromDict deserialization of a benchmark
request (the generic FromDict machinery lives outside the provided
sources); field lookup by name, failing on a missing or ill-typed
field. -/
def SubmitBenchmarkRequest.from_dict (d : Json) : Option SubmitBenchmarkRequest := do
  let id ← (← d.get "benchmark_id").asStr
  let root ← (← d.get "merkle_root").asStr
  let noncesJson ← (← d.get "solution_nonces").asArr
  let nonces ← parseInts noncesJson
  some ⟨id, root, nonces⟩

/-- Modelled from the spec: FromDict deserialization of a proof request. -/
def SubmitProofRequest.from_dict (d : Json) : Option SubmitProofRequest := do
  let id ← (← d.get "benchmark_id").asStr
  let proofs ← (← d.get "merkle_proofs").asArr
  some ⟨id, proofs⟩

/-- dataclass SubmissionsManagerConfig (lines 28-32). -/
structure SubmissionsManagerConfig where
  clear_precommits_submission_on_new_block : Bool
  max_retries : Option Int
  ms_delay_between_retries : Int
deriving DecidableEq, Repr

/-- dataclass PendingSubmission (lines 34-38). -/
structure PendingSubmission where
  last_retry_time : Int
  retries : Int
  request : SubmissionRequest

/-- The three queue categories (the keys of self.pending_submissions). -/
inductive SubmissionType where
  | precommit
  | benchmark
  | proof
deriving DecidableEq, Repr

def SubmissionType.name : SubmissionType → String
  | .precommit => "precommit"
  | .benchmark => "benchmark"
  | .proof => "proof"

/-- The backup folder contents: an association list from file path to
parsed JSON content. -/
abbrev FileSystem := List (String × Json)

def fsExists (fs : FileSystem) (path : String) : Bool :=
  fs.any (fun e => e.1 == path)

/-- open(path, "w") followed by json.dump: replaces any previous file at
that path. -/
def fsWrite (fs : FileSystem) (path : String) (content : Json) : FileSystem :=
  fs.filter (fun e => !(e.1 == path)) ++ [(path, content)]

/-- os.remove. -/
def fsRemove (fs : FileSystem) (path : String) : FileSystem :=
  fs.filter (fun e => !(e.1 == path))

/-- os.path.join for two components. -/
def osPathJoin (a b : String) : String := a ++ "/" ++ b

/-- The extension's mutable state: the three queues of
self.pending_submissions plus the backup folder contents. -/
structure ManagerState where
  precommit_q : List PendingSubmission
  benchmark_q : List PendingSubmission
  proof_q : List PendingSubmission
  files : FileSystem

def emptyState : ManagerState := ⟨[], [], [], []⟩

def ManagerState.queueOf (st : ManagerState) : SubmissionType → List PendingSubmission
  | .precommit => st.precommit_q
  | .benchmark => st.benchmark_q
  | .proof => st.proof_q

def ManagerState.setQueue (st : ManagerState) :
    SubmissionType → List PendingSubmission → ManagerState
  | .precommit, q => { st with precommit_q := q }
  | .benchmark, q => { st with benchmark_q := q }
  | .proof, q => { st with proof_q := q }

/-- on_precommit_ready (lines 80-87): always append, no persistence. -/
def on_precommit_ready (st : ManagerState)
    (settings : BenchmarkSettings) (num_nonces : Int) : ManagerState :=
  { st with precommit_q :=
      st.precommit_q ++ [⟨0, 0, .precommit ⟨settings, num_nonces⟩⟩] }

/-- on_benchmark_ready (lines 89-109): skip (with a warning) when the
benchmark_id is already pending, otherwise append and persist to
backup_folder/benchmark/<benchmark_id>.json. -/
def on_benchmark_ready (backup_folder : String) (st : ManagerState)
    (benchmark_id : String) (merkle_root : MerkleHash)
    (solution_nonces : List Int) : ManagerState :=
  if st.benchmark_q.any (fun x => x.request.benchmarkId? == some benchmark_id) then
    st
  else
    let request : SubmitBenchmarkRequest := ⟨benchmark_id, merkle_root, solution_nonces⟩
    { st with
      benchmark_q := st.benchmark_q ++ [⟨0, 0, .benchmark request⟩],
      files := fsWrite st.files
        (osPathJoin (osPathJoin backup_folder "benchmark") (benchmark_id ++ ".json"))
        request.to_dict }

/-- on_proof_ready (lines 111-130): symmetric to on_benchmark_ready. -/
def on_proof_ready (backup_folder : String) (st : ManagerState)
    (benchmark_id : String) (merkle_proofs : List MerkleProof) : ManagerState :=
  if st.proof_q.any (fun x => x.request.benchmarkId? == some benchmark_id) then
    st
  else
    let request : SubmitProofRequest := ⟨benchmark_id, merkle_proofs⟩
    { st with
      proof_q := st.proof_q ++ [⟨0, 0, .proof request⟩],
      files := fsWrite st.files
        (osPathJoin (osPathJoin backup_folder "proof") (benchmark_id ++ ".json"))
        request.to_dict }

/-- The removal condition of on_new_block (lines 145-148): the
submission's benchmark_id is absent from precommits (expired) or present
in the confirmed set for its category.  The none branch (a request with
no benchmark_id attribute) is unreachable for the two queues this is
applied to. -/
def shouldRemove (precommits confirmed : List String) (s : PendingSubmission) : Bool :=
  match s.request.benchmarkId? with
  | some id => !(precommits.contains id) || confirmed.contains id
  | none => false

/-- The per-queue loop body of on_new_block (lines 143-155): walk the
queue, deleting the backup file of each removed submission.  Note the
deletion path (line 150) joins backup_folder directly with
<benchmark_id>.json, without the category subdirectory. -/
def reconcileQueue (backup_folder : String) (precommits confirmed : List String) :
    List PendingSubmission → FileSystem → List PendingSubmission × FileSystem
  | [], fs => ([], fs)
  | s :: rest, fs =>
    if shouldRemove precommits confirmed s then
      let path := osPathJoin backup_folder ((s.request.benchmarkId?.getD "") ++ ".json")
      let fs := if fsExists fs path then fsRemove fs path else fs
      reconcileQueue backup_folder precommits confirmed rest fs
    else
      let (q, fs) := reconcileQueue backup_folder precommits confirmed rest fs
      (s :: q, fs)

/-- on_new_block (lines 132-155): optionally clear the precommit queue,
then reconcile the benchmark queue against the benchmarks confirmed set
and the proof queue against the proofs confirmed set.  The precommits
argument stands for the key set of the precommits mapping; benchmarks
and proofs stand for kwargs["benchmarks"] and kwargs["proofs"]. -/
def on_new_block (backup_folder : String) (cfg : SubmissionsManagerConfig)
    (st : ManagerState) (precommits benchmarks proofs : List String) : ManagerState :=
  let st :=
    if cfg.clear_precommits_submission_on_new_block then
      { st with precommit_q := [] }
    else st
  let b := reconcileQueue backup_folder precommits benchmarks st.benchmark_q st.files
  let p := reconcileQueue backup_folder precommits proofs st.proof_q b.2
  { st with benchmark_q := b.1, proof_q := p.1, files := p.2 }

/-- The sort key of on_update (line 164): ascending last_retry_time.
Python's sorted is stable, as is List.mergeSort. -/
def pendingLe (a b : PendingSubmission) : Bool :=
  decide (a.last_retry_time ≤ b.last_retry_time)

/-- The per-category body of on_update (lines 163-173): if the queue is
nonempty, sort it by last_retry_time; if the head is ready
(now - last_retry_time is not below the configured delay) pop and return
it, otherwise leave the sorted queue untouched. -/
def tickQueue (cfg : SubmissionsManagerConfig) (now : Int)
    (q : List PendingSubmission) : List PendingSubmission × Option PendingSubmission :=
  if q.isEmpty then (q, none)
  else
    match q.mergeSort pendingLe with
    | [] => ([], none)
    | head :: tail =>
      if now - head.last_retry_time < cfg.ms_delay_between_retries then
        (head :: tail, none)
      else
        (tail, some head)

/-- on_update (lines 157-175), dequeue phase: processes the categories in
the order precommit, benchmark, proof and collects the popped
submissions; the actual submit coroutines run afterwards (gather). -/
def on_update (cfg : SubmissionsManagerConfig) (now : Int) (st : ManagerState) :
    ManagerState × List (SubmissionType × PendingSubmission) :=
  let p := tickQueue cfg now st.precommit_q
  let b := tickQueue cfg now st.benchmark_q
  let r := tickQueue cfg now st.proof_q
  ({ st with precommit_q := p.1, benchmark_q := b.1, proof_q := r.1 },
   (p.2.map (fun s => (SubmissionType.precommit, s))).toList ++
   (b.2.map (fun s => (SubmissionType.benchmark, s))).toList ++
   (r.2.map (fun s => (SubmissionType.proof, s))).toList)

/-- The isinstance dispatch of submit (lines 187-194); none models the
final else branch that raises ValueError. -/
def submissionTypeOf : SubmissionRequest → Option SubmissionType
  | .precommit _ => some .precommit
  | .benchmark _ => some .benchmark
  | .proof _ => some .proof

/-- The re-enqueue condition of submit (lines 209-212): server error
(500-599) and either no retry cap or the incremented retry count stays
below it. -/
def retryCond (cfg : SubmissionsManagerConfig) (s : PendingSubmission)
    (status : Int) : Bool :=
  (decide (500 ≤ status) && decide (status ≤ 599)) &&
    (match cfg.max_retries with
     | none => true
     | some n => decide (s.retries + 1 < n))

/-- The events emitted by submit (lines 203 and 216): success carries the
response text plus the request's serialized fields; error carries the
response text, the status code and the original request. -/
inductive EmittedEvent where
  | success (ty : SubmissionType) (text : String) (fields : Json)
  | error (ty : SubmissionType) (text : String) (status : Int)
      (request : SubmissionRequest)

/-- submit (lines 177-216), modelled at its response-handling tail:
status and text are the HTTP response, respTime the clock reading taken
at line 214.  Returns none exactly when the isinstance chain falls
through to the ValueError (line 194). -/
def submit (cfg : SubmissionsManagerConfig) (st : ManagerState)
    (s : PendingSubmission) (status : Int) (text : String) (respTime : Int) :
    Option (ManagerState × List EmittedEvent) := do
  let ty ← submissionTypeOf s.request
  if status == 200 then
    some (st, [.success ty text s.request.to_dict])
  else
    let st :=
      if retryCond cfg s status then
        st.setQueue ty (st.queueOf ty ++
          [{ s with retries := s.retries + 1, last_retry_time := respTime }])
      else st
    some (st, [.error ty text status s.request])

/-- Python's str.endswith: the suffix test on the character sequence. -/
def strEndsWith (s suffix : String) : Bool :=
  suffix.data.isSuffixOf s.data

/-- A directory listing: file name paired with the parsed content of the
file (json.load). -/
abbrev DirListing := List (String × Json)

/-- The inner loop of _restore_pending_submissions (lines 66-78) for one
subdirectory: skip files not ending in ".json", deserialize the rest in
listing order into zero-bookkeeping pending submissions, recording the
paths read.  A file whose content does not deserialize makes the whole
restore fail (the constructor lets json/FromDict errors propagate). -/
def restoreDir (backup_folder : String) (submission_type : String)
    (parse : Json → Option SubmissionRequest) :
    DirListing → Option (List PendingSubmission × List String)
  | [] => some ([], [])
  | (name, content) :: rest =>
    if !(strEndsWith name ".json") then
      restoreDir backup_folder submission_type parse rest
    else
      (parse content).bind fun req =>
        (restoreDir backup_folder submission_type parse rest).map fun pl =>
          (⟨0, 0, req⟩ :: pl.1,
           osPathJoin (osPathJoin backup_folder submission_type) name :: pl.2)

/-- The result of _restore_pending_submissions: the restored queues plus
the ordered log of files read. -/
structure RestoreResult where
  benchmark_q : List PendingSubmission
  proof_q : List PendingSubmission
  readLog : List String

/-- _restore_pending_submissions (lines 58-78): the benchmark
subdirectory is processed in full, then the proof subdirectory; each
restored item gets last_retry_time = 0 and retries = 0. -/
def restorePendingSubmissions (backup_folder : String)
    (benchDir proofDir : DirListing) : Option RestoreResult :=
  (restoreDir backup_folder "benchmark"
      (fun d => (SubmitBenchmarkRequest.from_dict d).map .benchmark) benchDir).bind
    fun b =>
      (restoreDir backup_folder "proof"
          (fun d => (SubmitProofRequest.from_dict d).map .proof) proofDir).map
        fun p => ⟨b.1, p.1, b.2 ++ p.2⟩

/-- A bus event consumed by the extension.  An update event carries the
clock reading taken at line 160 and, per category, the HTTP response
(status, text) together with the clock reading taken at line 214 for the
item dequeued from that category, if any. -/
inductive BusEvent where
  | precommitReady (settings : BenchmarkSettings) (num_nonces : Int)
  | benchmarkReady (benchmark_id : String) (merkle_root : MerkleHash)
      (solution_nonces : List Int)
  | proofReady (benchmark_id : String) (merkle_proofs : List MerkleProof)
  | newBlock (precommits benchmarks proofs : List String)
  | update (now : Int) (responses : SubmissionType → Int × String × Int)

/-- One handler invocation of the extension. -/
def step (backup_folder : String) (cfg : SubmissionsManagerConfig)
    (st : ManagerState) : BusEvent → ManagerState
  | .precommitReady settings n => on_precommit_ready st settings n
  | .benchmarkReady id root nonces => on_benchmark_ready backup_folder st id root nonces
  | .proofReady id proofs => on_proof_ready backup_folder st id proofs
  | .newBlock precommits benchmarks proofs =>
      on_new_block backup_folder cfg st precommits benchmarks proofs
  | .update now responses =>
      let res := on_update cfg now st
      res.2.foldl
        (fun acc item =>
          let r := responses item.1
          match submit cfg acc item.2 r.1 r.2.1 r.2.2 with
          | some out => out.1
          | none => acc)
        res.1

/-- A sequence of handler invocations. -/
def run (backup_folder : String) (cfg : SubmissionsManagerConfig)
    (st : ManagerState) (events : List BusEvent) : ManagerState :=
  events.foldl (step backup_folder cfg) st

/-! ### Helper lemmas -/

theorem reconcileQueue_fst (backup_folder : String) (precommits confirmed : List String)
    (q : List PendingSubmission) (fs : FileSystem) :
    (reconcileQueue backup_folder precommits confirmed q fs).1
      = q.filter (fun s => !shouldRemove precommits confirmed s) := by
  induction q generalizing fs with
  | nil => simp [reconcileQueue]
  | cons s rest ih =>
    by_cases h : shouldRemove precommits confirmed s <;>
      simp [reconcileQueue, h, List.filter_cons, ih]

theorem on_new_block_benchmark_q (backup_folder : String)
    (cfg : SubmissionsManagerConfig) (st : ManagerState)
    (precommits benchmarks proofs : List String) :
    (on_new_block backup_folder cfg st precommits benchmarks proofs).benchmark_q
      = st.benchmark_q.filter (fun s => !shouldRemove precommits benchmarks s) := by
  by_cases hc : cfg.clear_precommits_submission_on_new_block <;>
    simp [on_new_block, hc, reconcileQueue_fst]

theorem on_new_block_proof_q (backup_folder : String)
    (cfg : SubmissionsManagerConfig) (st : ManagerState)
    (precommits benchmarks proofs : List String) :
    (on_new_block backup_folder cfg st precommits benchmarks proofs).proof_q
      = st.proof_q.filter (fun s => !shouldRemove precommits proofs s) := by
  by_cases hc : cfg.clear_precommits_submission_on_new_block <;>
    simp [on_new_block, hc, reconcileQueue_fst]

theorem shouldRemove_false_iff (precommits confirmed : List String)
    (s : PendingSubmission) (id : String)
    (hid : s.request.benchmarkId? = some id) :
    shouldRemove precommits confirmed s = false ↔ (id ∈ precommits ∧ id ∉ confirmed) := by
  simp [shouldRemove, hid]

theorem parseInts_map_int (xs : List Int) :
    parseInts (xs.map Json.int) = some xs := by
  induction xs with
  | nil => rfl
  | cons x xs ih => simp [parseInts, ih, Json.asInt]

theorem bench_from_dict_to_dict (r : SubmitBenchmarkRequest) :
    SubmitBenchmarkRequest.from_dict r.to_dict = some r := by
  simp [SubmitBenchmarkRequest.from_dict, SubmitBenchmarkRequest.to_dict,
    Json.get, List.lookup, Json.asStr, Json.asArr, parseInts_map_int]

theorem proof_from_dict_to_dict (p : SubmitProofRequest) :
    SubmitProofRequest.from_dict p.to_dict = some p := by
  simp [SubmitProofRequest.from_dict, SubmitProofRequest.to_dict,
    Json.get, List.lookup, Json.asStr, Json.asArr]

theorem restoreDir_log (backup_folder submission_type : String)
    (parse : Json → Option SubmissionRequest) (dir : DirListing)
    (subs : List PendingSubmission) (log : List String)
    (h : restoreDir backup_folder submission_type parse dir = some (subs, log)) :
    log = (dir.filter (fun f => strEndsWith f.1 ".json")).map
      (fun f => osPathJoin (osPathJoin backup_folder submission_type) f.1) := by
  induction dir generalizing subs log with
  | nil =>
    simp [restoreDir] at h
    simp [h.2]
  | cons f rest ih =>
    by_cases hj : strEndsWith f.1 ".json"
    · rcases hp : parse f.2 with _ | req
      · simp [restoreDir, hj, hp] at h
      rcases hr : restoreDir backup_folder submission_type parse rest with _ | pl
      · simp [restoreDir, hj, hp, hr] at h
      simp [restoreDir, hj, hp, hr] at h
      simp [List.filter_cons, hj, ← h.2, ih pl.1 pl.2 (by simpa using hr)]
    · simp [restoreDir, hj] at h
      simp [List.filter_cons, hj, ih subs log h]

/-! ### Claims -/

/-- C1: the spec states that upon reconciliation removal the persisted
backup file backup_folder/<category>/<benchmark_id>.json is deleted; the
code (submissions_manager.py line 150) builds the deletion path without
the category subdirectory, so at this concrete input the benchmark
submission b1 is removed from its queue while its backup file
backup/benchmark/b1.json survives. -/
theorem c1_backup_file_survives_removal :
    (on_new_block "backup" ⟨false, none, 0⟩
        (on_benchmark_ready "backup" emptyState "b1" "root" [1, 2, 3])
        [] [] []).benchmark_q = []
    ∧ fsExists
        (on_new_block "backup" ⟨false, none, 0⟩
          (on_benchmark_ready "backup" emptyState "b1" "root" [1, 2, 3])
          [] [] []).files
        "backup/benchmark/b1.json" = true := by
  constructor
  · rfl
  · rfl

/-- C2: on a new_block event a queued benchmark (resp. proof) submission
is removed exactly when its benchmark_id is absent from precommits or
present in the benchmarks (resp. proofs) confirmed set; survivors are a
filter of the original queue, hence keep their relative order. -/
theorem c2_new_block_removal_iff (backup_folder : String)
    (cfg : SubmissionsManagerConfig) (st : ManagerState)
    (precommits benchmarks proofs : List String) :
    ((on_new_block backup_folder cfg st precommits benchmarks proofs).benchmark_q
        = st.benchmark_q.filter (fun s => !shouldRemove precommits benchmarks s))
    ∧ ((on_new_block backup_folder cfg st precommits benchmarks proofs).proof_q
        = st.proof_q.filter (fun s => !shouldRemove precommits proofs s))
    ∧ (∀ s : PendingSubmission, ∀ id : String, s.request.benchmarkId? = some id →
        (s ∈ (on_new_block backup_folder cfg st precommits benchmarks proofs).benchmark_q
          ↔ s ∈ st.benchmark_q ∧ id ∈ precommits ∧ id ∉ benchmarks))
    ∧ (∀ s : PendingSubmission, ∀ id : String, s.request.benchmarkId? = some id →
        (s ∈ (on_new_block backup_folder cfg st precommits benchmarks proofs).proof_q
          ↔ s ∈ st.proof_q ∧ id ∈ precommits ∧ id ∉ proofs))
    ∧ ((on_new_block backup_folder cfg st precommits benchmarks proofs).benchmark_q.Sublist
        st.benchmark_q)
    ∧ ((on_new_block backup_folder cfg st precommits benchmarks proofs).proof_q.Sublist
        st.proof_q) := by
  refine ⟨on_new_block_benchmark_q .., on_new_block_proof_q .., ?_, ?_, ?_, ?_⟩
  · intro s id hid
    rw [on_new_block_benchmark_q, List.mem_filter]
    simp [shouldRemove, hid]
  · intro s id hid
    rw [on_new_block_proof_q, List.mem_filter]
    simp [shouldRemove, hid]
  · rw [on_new_block_benchmark_q]
    exact List.filter_sublist _
  · rw [on_new_block_proof_q]
    exact List.filter_sublist _

/-- C2 witness: at a concrete state holding one benchmark submission b1
whose precommit expired, the removal equivalence instantiates to show b1
leaves the queue. -/
theorem c2_witness :
    ¬ ((⟨0, 0, .benchmark ⟨"b1", "root", [1, 2]⟩⟩ : PendingSubmission)
        ∈ (on_new_block "backup" ⟨false, none, 0⟩
            ⟨[], [⟨0, 0, .benchmark ⟨"b1", "root", [1, 2]⟩⟩], [], []⟩
            [] [] []).benchmark_q) := by
  have h := (c2_new_block_removal_iff "backup" ⟨false, none, 0⟩
      ⟨[], [⟨0, 0, .benchmark ⟨"b1", "root", [1, 2]⟩⟩], [], []⟩ [] [] []).2.2.1
      ⟨0, 0, .benchmark ⟨"b1", "root", [1, 2]⟩⟩ "b1" rfl
  intro hmem
  exact absurd (h.mp hmem).2.1 (List.not_mem_nil _)

/-- C6: a benchmark (resp. proof) request persisted as
<benchmark_id>.json and restored at startup yields a pending submission
whose request equals the original and whose retries and last_retry_time
are both 0 (round trip through the serialized form). -/
theorem c6_restore_round_trip (backup_folder fnameB fnameP : String)
    (hjsonB : strEndsWith fnameB ".json" = true)
    (hjsonP : strEndsWith fnameP ".json" = true)
    (r : SubmitBenchmarkRequest) (p : SubmitProofRequest) :
    restorePendingSubmissions backup_folder [(fnameB, r.to_dict)] [(fnameP, p.to_dict)]
      = some ⟨[⟨0, 0, .benchmark r⟩], [⟨0, 0, .proof p⟩],
              [osPathJoin (osPathJoin backup_folder "benchmark") fnameB,
               osPathJoin (osPathJoin backup_folder "proof") fnameP]⟩ := by
  simp [restorePendingSubmissions, restoreDir, hjsonB, hjsonP,
    bench_from_dict_to_dict, proof_from_dict_to_dict]

/-- C6 witness: concrete round trip for benchmark request
("b1", "root", [1, 2]) and proof request ("b2", [json "x"]) stored as
b.json and p.json. -/
theorem c6_witness :
    restorePendingSubmissions "backup"
        [("b.json", SubmitBenchmarkRequest.to_dict ⟨"b1", "root", [1, 2]⟩)]
        [("p.json", SubmitProofRequest.to_dict ⟨"b2", [Json.str "x"]⟩)]
      = some ⟨[⟨0, 0, .benchmark ⟨"b1", "root", [1, 2]⟩⟩],
              [⟨0, 0, .proof ⟨"b2", [Json.str "x"]⟩⟩],
              ["backup/benchmark/b.json", "backup/proof/p.json"]⟩ :=
  c6_restore_round_trip "backup" "b.json" "p.json" (by decide) (by decide)
    ⟨"b1", "root", [1, 2]⟩ ⟨"b2", [Json.str "x"]⟩

/-- C7: every submission attempt emits exactly one event: on HTTP 200 a
success event for its category carrying the response body and the
request's serialized fields; on any non-200 status an error event
carrying the response text, the status code and the original request. -/
theorem c7_submit_events (cfg : SubmissionsManagerConfig) (st : ManagerState)
    (s : PendingSubmission) (ty : SubmissionType)
    (status : Int) (text : String) (respTime : Int)
    (hty : submissionTypeOf s.request = some ty) :
    (status = 200 →
      submit cfg st s status text respTime
        = some (st, [.success ty text s.request.to_dict]))
    ∧ (status ≠ 200 → ∃ st2 : ManagerState,
        submit cfg st s status text respTime
          = some (st2, [.error ty text status s.request])) := by
  constructor
  · intro h
    simp [submit, hty, h]
  · intro h
    refine ⟨if retryCond cfg s status then
        st.setQueue ty (st.queueOf ty ++
          [{ s with retries := s.retries + 1, last_retry_time := respTime }])
      else st, ?_⟩
    by_cases hr : retryCond cfg s status <;> simp [submit, hty, h, hr]

/-- C7 witness: a 200 response for a concrete benchmark submission emits
the success event with the serialized request fields. -/
theorem c7_witness :
    submit ⟨false, none, 0⟩ emptyState ⟨0, 0, .benchmark ⟨"b1", "r", []⟩⟩ 200 "ok" 5
      = some (emptyState,
          [.success .benchmark "ok"
            (SubmissionRequest.to_dict (.benchmark ⟨"b1", "r", []⟩))]) :=
  (c7_submit_events ⟨false, none, 0⟩ emptyState ⟨0, 0, .benchmark ⟨"b1", "r", []⟩⟩
    .benchmark 200 "ok" 5 rfl).1 rfl

/-- C9: startup restoration reads exactly the files whose names end in
".json": the ordered log of files read lists the json files of the
benchmark directory (in listing order) followed by those of the proof
directory, and prepending a non-json file to either directory leaves the
restoration result unchanged. -/
theorem c9_restore_reads_json_only (backup_folder : String)
    (benchDir proofDir : DirListing) (res : RestoreResult)
    (h : restorePendingSubmissions backup_folder benchDir proofDir = some res) :
    (res.readLog
      = (benchDir.filter (fun f => strEndsWith f.1 ".json")).map
          (fun f => osPathJoin (osPathJoin backup_folder "benchmark") f.1)
        ++ (proofDir.filter (fun f => strEndsWith f.1 ".json")).map
          (fun f => osPathJoin (osPathJoin backup_folder "proof") f.1))
    ∧ (∀ name content, strEndsWith name ".json" = false →
        restorePendingSubmissions backup_folder ((name, content) :: benchDir) proofDir
          = restorePendingSubmissions backup_folder benchDir proofDir
        ∧ restorePendingSubmissions backup_folder benchDir ((name, content) :: proofDir)
          = restorePendingSubmissions backup_folder benchDir proofDir) := by
  constructor
  · rcases hb : restoreDir backup_folder "benchmark"
        (fun d => (SubmitBenchmarkRequest.from_dict d).map .benchmark) benchDir with _ | b
    · simp [restorePendingSubmissions, hb] at h
    rcases hp : restoreDir backup_folder "proof"
        (fun d => (SubmitProofRequest.from_dict d).map .proof) proofDir with _ | p
    · simp [restorePendingSubmissions, hb, hp] at h
    have hres : res = ⟨b.1, p.1, b.2 ++ p.2⟩ := by
      simp [restorePendingSubmissions, hb, hp] at h
      exact h.symm
    rw [hres]
    rw [restoreDir_log backup_folder "benchmark" _ benchDir b.1 b.2 (by simpa using hb),
        restoreDir_log backup_folder "proof" _ proofDir p.1 p.2 (by simpa using hp)]
  · intro name content hname
    constructor <;> simp [restorePendingSubmissions, restoreDir, hname]

/-- C9 witness: restoring a benchmark directory holding one json file and
one non-json file reads only the json file. -/
theorem c9_witness :
    (⟨[⟨0, 0, .benchmark ⟨"b1", "root", []⟩⟩], [], ["backup/benchmark/b.json"]⟩
        : RestoreResult).readLog
      = ["backup/benchmark/b.json"] := by
  have h := c9_restore_reads_json_only "backup"
    [("b.json", SubmitBenchmarkRequest.to_dict ⟨"b1", "root", []⟩), ("skip.txt", Json.int 0)]
    [] ⟨[⟨0, 0, .benchmark ⟨"b1", "root", []⟩⟩], [], ["backup/benchmark/b.json"]⟩ rfl
  simp at h
  exact h.1

theorem pendingLe_trans (a b c : PendingSubmission) :
    pendingLe a b = true → pendingLe b c = true → pendingLe a c = true := by
  simp [pendingLe]
  omega

theorem pendingLe_total (a b : PendingSubmission) :
    (pendingLe a b || pendingLe b a) = true := by
  simp [pendingLe]
  omega

theorem mergeSort_head_min (q : List PendingSubmission)
    (hd : PendingSubmission) (tl : List PendingSubmission)
    (hq : q.mergeSort pendingLe = hd :: tl) :
    ∀ x ∈ q, hd.last_retry_time ≤ x.last_retry_time := by
  intro x hx
  have hx2 : x ∈ q.mergeSort pendingLe :=
    (List.mergeSort_perm q pendingLe).mem_iff.mpr hx
  rw [hq] at hx2
  rcases List.mem_cons.mp hx2 with heq | hmem
  · exact heq ▸ le_refl _
  · have hsorted := @List.sorted_mergeSort PendingSubmission pendingLe
      pendingLe_trans pendingLe_total q
    rw [hq] at hsorted
    have := (List.pairwise_cons.mp hsorted).1 x hmem
    simpa [pendingLe] using this

theorem tickQueue_mem (cfg : SubmissionsManagerConfig) (now : Int)
    (q : List PendingSubmission) (x : PendingSubmission)
    (hx : x ∈ (tickQueue cfg now q).1) : x ∈ q := by
  unfold tickQueue at hx
  by_cases he : q.isEmpty
  · simpa [he] using hx
  rcases hm : q.mergeSort pendingLe with _ | ⟨hd, tl⟩
  · simp [he, hm] at hx
  by_cases hready : now - hd.last_retry_time < cfg.ms_delay_between_retries
  · simp [he, hm, hready] at hx
    refine (List.mergeSort_perm q pendingLe).mem_iff.mp ?_
    rw [hm]
    exact List.mem_cons.mpr hx
  · simp [he, hm, hready] at hx
    refine (List.mergeSort_perm q pendingLe).mem_iff.mp ?_
    rw [hm]
    exact List.mem_cons_of_mem hd hx

theorem tickQueue_pop (cfg : SubmissionsManagerConfig) (now : Int)
    (q : List PendingSubmission) (s : PendingSubmission)
    (h : (tickQueue cfg now q).2 = some s) :
    cfg.ms_delay_between_retries ≤ now - s.last_retry_time
    ∧ s ∈ q
    ∧ (∀ x ∈ q, s.last_retry_time ≤ x.last_retry_time) := by
  unfold tickQueue at h
  by_cases he : q.isEmpty
  · simp [he] at h
  rcases hm : q.mergeSort pendingLe with _ | ⟨hd, tl⟩
  · simp [he, hm] at h
  by_cases hready : now - hd.last_retry_time < cfg.ms_delay_between_retries
  · simp [he, hm, hready] at h
  · simp [he, hm, hready] at h
    subst h
    refine ⟨by omega, ?_, mergeSort_head_min q _ tl hm⟩
    refine (List.mergeSort_perm q pendingLe).mem_iff.mp ?_
    rw [hm]
    exact List.mem_cons_self _ _

theorem ManagerState.queueOf_precommit (st : ManagerState) :
    st.queueOf .precommit = st.precommit_q := rfl

theorem ManagerState.queueOf_benchmark (st : ManagerState) :
    st.queueOf .benchmark = st.benchmark_q := rfl

theorem ManagerState.queueOf_proof (st : ManagerState) :
    st.queueOf .proof = st.proof_q := rfl

theorem mem_tagged_toList {o : Option PendingSubmission} {tag ty : SubmissionType}
    {s : PendingSubmission}
    (h : (ty, s) ∈ (o.map fun x => (tag, x)).toList) : ty = tag ∧ o = some s := by
  cases o with
  | none => simp at h
  | some v =>
    simp at h
    exact ⟨h.1, by rw [h.2]⟩

/-- C4: on an update tick no category loses more than one item; the
dequeued item is one with minimal last_retry_time in its queue and is
dequeued only when now minus its last_retry_time has reached the
configured delay — so an item retried at time T is not attempted again
before T plus the delay. -/
theorem c4_one_ready_head_per_tick (cfg : SubmissionsManagerConfig)
    (now : Int) (st : ManagerState) :
    (∀ ty : SubmissionType,
      (((on_update cfg now st).2.filter (fun e => e.1 == ty)).length ≤ 1))
    ∧ (∀ (ty : SubmissionType) (s : PendingSubmission),
        (ty, s) ∈ (on_update cfg now st).2 →
          cfg.ms_delay_between_retries ≤ now - s.last_retry_time
          ∧ s ∈ st.queueOf ty
          ∧ (∀ x ∈ st.queueOf ty, s.last_retry_time ≤ x.last_retry_time)) := by
  constructor
  · intro ty
    rcases hp : (tickQueue cfg now st.precommit_q).2 with _ | sp <;>
      rcases hb : (tickQueue cfg now st.benchmark_q).2 with _ | sb <;>
        rcases hr : (tickQueue cfg now st.proof_q).2 with _ | sr <;>
          cases ty <;>
            simp [on_update, hp, hb, hr, List.filter_append]
  · intro ty s hmem
    simp only [on_update, List.mem_append] at hmem
    rcases hmem with (hmem | hmem) | hmem
    · obtain ⟨hty, ho⟩ := mem_tagged_toList hmem
      subst hty
      rw [ManagerState.queueOf_precommit]
      exact tickQueue_pop cfg now st.precommit_q s ho
    · obtain ⟨hty, ho⟩ := mem_tagged_toList hmem
      subst hty
      rw [ManagerState.queueOf_benchmark]
      exact tickQueue_pop cfg now st.benchmark_q s ho
    · obtain ⟨hty, ho⟩ := mem_tagged_toList hmem
      subst hty
      rw [ManagerState.queueOf_proof]
      exact tickQueue_pop cfg now st.proof_q s ho

/-- C4 witness: with a 5 ms delay and one benchmark item last retried at
time 0, the item dequeued at time 7 satisfies the spacing bound 5 ≤ 7 - 0. -/
theorem c4_witness :
    (5 : Int) ≤ 7 - (0 : Int)
    ∧ ((⟨0, 0, .benchmark ⟨"b1", "r", []⟩⟩ : PendingSubmission)
        ∈ (⟨[], [⟨0, 0, .benchmark ⟨"b1", "r", []⟩⟩], [], []⟩ : ManagerState).queueOf
          .benchmark) := by
  have h := (c4_one_ready_head_per_tick ⟨false, none, 5⟩ 7
      ⟨[], [⟨0, 0, .benchmark ⟨"b1", "r", []⟩⟩], [], []⟩).2
      .benchmark ⟨0, 0, .benchmark ⟨"b1", "r", []⟩⟩ (by simp [on_update, tickQueue])
  exact ⟨h.1, h.2.1⟩

theorem retryCond_iff (cfg : SubmissionsManagerConfig) (s : PendingSubmission)
    (status : Int) :
    retryCond cfg s status = true ↔
      ((500 ≤ status ∧ status ≤ 599) ∧
        (cfg.max_retries = none ∨
          ∃ n : Int, cfg.max_retries = some n ∧ s.retries + 1 < n)) := by
  rcases hm : cfg.max_retries with _ | n <;> simp [retryCond, hm]

theorem queueOf_setQueue_self (st : ManagerState) (ty : SubmissionType)
    (q : List PendingSubmission) : (st.setQueue ty q).queueOf ty = q := by
  cases ty <;> rfl

theorem queueOf_setQueue_other (st : ManagerState) (ty ty2 : SubmissionType)
    (q : List PendingSubmission) (h : ty2 ≠ ty) :
    (st.setQueue ty q).queueOf ty2 = st.queueOf ty2 := by
  cases ty <;> cases ty2 <;> first | exact absurd rfl h | rfl

theorem submit_non200 (cfg : SubmissionsManagerConfig) (st : ManagerState)
    (s : PendingSubmission) (ty : SubmissionType) (status : Int)
    (text : String) (respTime : Int)
    (hty : submissionTypeOf s.request = some ty) (hne : status ≠ 200) :
    submit cfg st s status text respTime
      = some
          (if retryCond cfg s status then
            st.setQueue ty (st.queueOf ty ++
              [{ s with retries := s.retries + 1, last_retry_time := respTime }])
          else st,
          [.error ty text status s.request]) := by
  by_cases hr : retryCond cfg s status <;> simp [submit, hty, hne, hr]

/-- The tick times of the always-failing scenario: strictly spaced by one
more than the configured delay. -/
def failTime (D : Int) (i : Nat) : Int := ((i : Int) + 1) * (D + 1)

/-- One update tick of the always-failing scenario: the dequeued item
receives HTTP 503. -/
def failTick (D : Int) (i : Nat) : BusEvent :=
  .update (failTime D i) (fun _ => (503, "err", failTime D i))

/-- The first k ticks of the always-failing scenario. -/
def failEvents (D : Int) : Nat → List BusEvent
  | 0 => []
  | k + 1 => failEvents D k ++ [failTick D k]

/-- A freshly accepted benchmark submission alone in its queue. -/
def singleBenchState (req : SubmitBenchmarkRequest) : ManagerState :=
  ⟨[], [⟨0, 0, .benchmark req⟩], [], []⟩

theorem update_empty_step (backup_folder : String) (cfg : SubmissionsManagerConfig)
    (now : Int) (responses : SubmissionType → Int × String × Int) :
    step backup_folder cfg ⟨[], [], [], []⟩ (.update now responses)
      = ⟨[], [], [], []⟩ := by
  simp [step, on_update, tickQueue]

theorem update_fail_step (backup_folder : String) (clear : Bool) (N D : Int)
    (t0 now r : Int) (req : SubmitBenchmarkRequest)
    (hnow : ¬ (now - t0 < D)) :
    step backup_folder ⟨clear, some N, D⟩ ⟨[], [⟨t0, r, .benchmark req⟩], [], []⟩
        (.update now (fun _ => (503, "err", now)))
      = if r + 1 < N then ⟨[], [⟨now, r + 1, .benchmark req⟩], [], []⟩
        else ⟨[], [], [], []⟩ := by
  by_cases hrN : r + 1 < N <;>
    simp [step, on_update, tickQueue, hnow, submit, submissionTypeOf, retryCond,
      hrN, ManagerState.setQueue, ManagerState.queueOf]

theorem run_append_single (backup_folder : String) (cfg : SubmissionsManagerConfig)
    (st : ManagerState) (events : List BusEvent) (e : BusEvent) :
    run backup_folder cfg st (events ++ [e])
      = step backup_folder cfg (run backup_folder cfg st events) e := by
  simp [run, List.foldl_append]

theorem failEvents_run (backup_folder : String) (clear : Bool) (N D : Int)
    (req : SubmitBenchmarkRequest) (h1 : 1 ≤ N) (k : Nat) :
    run backup_folder ⟨clear, some N, D⟩ (singleBenchState req) (failEvents D k)
      = if (k : Int) < N then
          ⟨[], [⟨(k : Int) * (D + 1), (k : Int), .benchmark req⟩], [], []⟩
        else ⟨[], [], [], []⟩ := by
  induction k with
  | zero =>
    rw [if_pos (by exact_mod_cast (by omega : (0 : Int) < N))]
    simp [failEvents, run, singleBenchState]
  | succ k ih =>
    rw [failEvents, run_append_single, ih]
    by_cases hk : (k : Int) < N
    · rw [if_pos hk]
      have hdiff : failTime D k - (k : Int) * (D + 1) = D + 1 := by
        rw [failTime]
        ring
      have hnow : ¬ (failTime D k - (k : Int) * (D + 1) < D) := by
        rw [hdiff]
        omega
      rw [failTick, update_fail_step backup_folder clear N D _ _ _ req hnow]
      by_cases hk1 : (k : Int) + 1 < N
      · rw [if_pos hk1, if_pos (by push_cast; omega)]
        rw [failTime]
        push_cast
        ring_nf
      · rw [if_neg hk1, if_neg (by push_cast; omega)]
    · rw [if_neg hk, failTick, update_empty_step]
      rw [if_neg (by push_cast; omega)]

/-- C3: submit re-enqueues the failed item (at the tail, with retries
incremented by 1 and last_retry_time set to the submission-time clock)
exactly when the status is in 500-599 and either no max_retries is
configured or the incremented retry count stays below it; a non-200
status outside 500-599 leaves every queue unchanged; and with
max_retries = N ≥ 1 an always-503 item is re-enqueued after each of the
first N-1 ticks (queue holds it with retries = k after tick k < N) and
is dropped permanently from tick N on. -/
theorem c3_retry_cap_semantics :
    (∀ (cfg : SubmissionsManagerConfig) (s : PendingSubmission) (status : Int),
      retryCond cfg s status = true ↔
        ((500 ≤ status ∧ status ≤ 599) ∧
          (cfg.max_retries = none ∨
            ∃ n : Int, cfg.max_retries = some n ∧ s.retries + 1 < n)))
    ∧ (∀ (cfg : SubmissionsManagerConfig) (st : ManagerState) (s : PendingSubmission)
        (ty : SubmissionType) (status : Int) (text : String) (respTime : Int),
        submissionTypeOf s.request = some ty → status ≠ 200 →
          submit cfg st s status text respTime
            = some
                (if retryCond cfg s status then
                  st.setQueue ty (st.queueOf ty ++
                    [{ s with retries := s.retries + 1, last_retry_time := respTime }])
                else st,
                [.error ty text status s.request]))
    ∧ (∀ (cfg : SubmissionsManagerConfig) (st : ManagerState) (s : PendingSubmission)
        (ty : SubmissionType) (status : Int) (text : String) (respTime : Int),
        submissionTypeOf s.request = some ty → status ≠ 200 →
          ¬ (500 ≤ status ∧ status ≤ 599) →
          submit cfg st s status text respTime
            = some (st, [.error ty text status s.request]))
    ∧ (∀ (backup_folder : String) (clear : Bool) (N D : Int)
        (req : SubmitBenchmarkRequest) (k : Nat), 1 ≤ N →
        ((k : Int) < N →
          run backup_folder ⟨clear, some N, D⟩ (singleBenchState req) (failEvents D k)
            = ⟨[], [⟨(k : Int) * (D + 1), (k : Int), .benchmark req⟩], [], []⟩)
        ∧ (N ≤ (k : Int) →
          run backup_folder ⟨clear, some N, D⟩ (singleBenchState req) (failEvents D k)
            = ⟨[], [], [], []⟩)) := by
  refine ⟨retryCond_iff, ?_, ?_, ?_⟩
  · intro cfg st s ty status text respTime hty hne
    exact submit_non200 cfg st s ty status text respTime hty hne
  · intro cfg st s ty status text respTime hty hne hout
    rw [submit_non200 cfg st s ty status text respTime hty hne]
    rw [if_neg ?hfalse]
    case hfalse =>
      intro hr
      exact hout ((retryCond_iff cfg s status).mp hr).1
  · intro backup_folder clear N D req k h1
    constructor
    · intro hk
      rw [failEvents_run backup_folder clear N D req h1 k, if_pos hk]
    · intro hk
      rw [failEvents_run backup_folder clear N D req h1 k, if_neg (by omega)]

/-- C3 witness: with max_retries = 2 and delay 5, the always-503
benchmark item is still queued with retries = 1 after the first tick and
gone after the second. -/
theorem c3_witness :
    run "backup" ⟨false, some 2, 5⟩ (singleBenchState ⟨"b1", "r", []⟩) (failEvents 5 1)
      = ⟨[], [⟨6, 1, .benchmark ⟨"b1", "r", []⟩⟩], [], []⟩
    ∧ run "backup" ⟨false, some 2, 5⟩ (singleBenchState ⟨"b1", "r", []⟩) (failEvents 5 2)
      = ⟨[], [], [], []⟩ := by
  have h1 := (c3_retry_cap_semantics.2.2.2 "backup" false 2 5 ⟨"b1", "r", []⟩ 1
    (by omega)).1 (by omega)
  have h2 := (c3_retry_cap_semantics.2.2.2 "backup" false 2 5 ⟨"b1", "r", []⟩ 2
    (by omega)).2 (by omega)
  constructor
  · rw [h1]
    norm_num
  · exact h2

/-- The benchmark/proof queue uniqueness invariant: at most one pending
submission per benchmark_id. -/
def NoDupIds (q : List PendingSubmission) : Prop :=
  ∀ id : String,
    (q.filter (fun s => s.request.benchmarkId? == some id)).length ≤ 1

/-- The artifact-ready events (as opposed to new_block and update). -/
def BusEvent.isReady : BusEvent → Bool
  | .precommitReady .. => true
  | .benchmarkReady .. => true
  | .proofReady .. => true
  | _ => false

theorem on_benchmark_ready_nodup (backup_folder : String) (st : ManagerState)
    (benchmark_id : String) (root : MerkleHash) (nonces : List Int)
    (h : NoDupIds st.benchmark_q) :
    NoDupIds (on_benchmark_ready backup_folder st benchmark_id root nonces).benchmark_q := by
  by_cases hdup :
      st.benchmark_q.any (fun x => x.request.benchmarkId? == some benchmark_id)
  · simpa [on_benchmark_ready, hdup] using h
  · intro id2
    rw [on_benchmark_ready, if_neg hdup]
    simp only [List.filter_append, List.length_append]
    by_cases hid : id2 = benchmark_id
    · subst hid
      have hfil :
          st.benchmark_q.filter (fun s => s.request.benchmarkId? == some id2) = [] := by
        rw [List.filter_eq_nil_iff]
        intro a ha hpa
        exact hdup (List.any_eq_true.mpr ⟨a, ha, hpa⟩)
      rw [hfil]
      simp [List.filter, SubmissionRequest.benchmarkId?]
    · have hnew :
          ((SubmissionRequest.benchmark ⟨benchmark_id, root, nonces⟩).benchmarkId?
            == some id2) = false := by
        simp [SubmissionRequest.benchmarkId?]
        exact fun hcontra => hid hcontra.symm
      have := h id2
      simp [List.filter, hnew]
      omega

theorem on_benchmark_ready_proof_q (backup_folder : String) (st : ManagerState)
    (benchmark_id : String) (root : MerkleHash) (nonces : List Int) :
    (on_benchmark_ready backup_folder st benchmark_id root nonces).proof_q
      = st.proof_q := by
  by_cases hdup :
      st.benchmark_q.any (fun x => x.request.benchmarkId? == some benchmark_id) <;>
    simp [on_benchmark_ready, hdup]

theorem on_proof_ready_nodup (backup_folder : String) (st : ManagerState)
    (benchmark_id : String) (proofs : List MerkleProof)
    (h : NoDupIds st.proof_q) :
    NoDupIds (on_proof_ready backup_folder st benchmark_id proofs).proof_q := by
  by_cases hdup :
      st.proof_q.any (fun x => x.request.benchmarkId? == some benchmark_id)
  · simpa [on_proof_ready, hdup] using h
  · intro id2
    rw [on_proof_ready, if_neg hdup]
    simp only [List.filter_append, List.length_append]
    by_cases hid : id2 = benchmark_id
    · subst hid
      have hfil :
          st.proof_q.filter (fun s => s.request.benchmarkId? == some id2) = [] := by
        rw [List.filter_eq_nil_iff]
        intro a ha hpa
        exact hdup (List.any_eq_true.mpr ⟨a, ha, hpa⟩)
      rw [hfil]
      simp [List.filter, SubmissionRequest.benchmarkId?]
    · have hnew :
          ((SubmissionRequest.proof ⟨benchmark_id, proofs⟩).benchmarkId?
            == some id2) = false := by
        simp [SubmissionRequest.benchmarkId?]
        exact fun hcontra => hid hcontra.symm
      have := h id2
      simp [List.filter, hnew]
      omega

theorem on_proof_ready_benchmark_q (backup_folder : String) (st : ManagerState)
    (benchmark_id : String) (proofs : List MerkleProof) :
    (on_proof_ready backup_folder st benchmark_id proofs).benchmark_q
      = st.benchmark_q := by
  by_cases hdup :
      st.proof_q.any (fun x => x.request.benchmarkId? == some benchmark_id) <;>
    simp [on_proof_ready, hdup]

theorem run_cons (backup_folder : String) (cfg : SubmissionsManagerConfig)
    (st : ManagerState) (e : BusEvent) (rest : List BusEvent) :
    run backup_folder cfg st (e :: rest)
      = run backup_folder cfg (step backup_folder cfg st e) rest := rfl

theorem ready_run_nodup (backup_folder : String) (cfg : SubmissionsManagerConfig)
    (events : List BusEvent) (st : ManagerState)
    (hev : ∀ e ∈ events, e.isReady = true)
    (hb : NoDupIds st.benchmark_q) (hp : NoDupIds st.proof_q) :
    NoDupIds (run backup_folder cfg st events).benchmark_q
    ∧ NoDupIds (run backup_folder cfg st events).proof_q := by
  induction events generalizing st with
  | nil => exact ⟨hb, hp⟩
  | cons e rest ih =>
    have hrest : ∀ e2 ∈ rest, e2.isReady = true :=
      fun e2 h2 => hev e2 (List.mem_cons_of_mem e h2)
    rw [run_cons]
    cases e with
    | precommitReady settings n =>
      exact ih _ hrest hb hp
    | benchmarkReady id root nonces =>
      refine ih _ hrest ?_ ?_
      · exact on_benchmark_ready_nodup backup_folder st id root nonces hb
      · rw [show (step backup_folder cfg st (.benchmarkReady id root nonces)).proof_q
            = st.proof_q from on_benchmark_ready_proof_q backup_folder st id root nonces]
        exact hp
    | proofReady id proofs =>
      refine ih _ hrest ?_ ?_
      · rw [show (step backup_folder cfg st (.proofReady id proofs)).benchmark_q
            = st.benchmark_q from on_proof_ready_benchmark_q backup_folder st id proofs]
        exact hb
      · exact on_proof_ready_nodup backup_folder st id proofs hp
    | newBlock precommits benchmarks proofs =>
      exact absurd (hev _ (List.mem_cons_self _ _)) (by simp [BusEvent.isReady])
    | update now responses =>
      exact absurd (hev _ (List.mem_cons_self _ _)) (by simp [BusEvent.isReady])

/-- C5: over any sequence of artifact-ready events the benchmark and
proof queues never hold two pending submissions with the same
benchmark_id, and a ready event whose benchmark_id is already pending
leaves the entire state (queues and backup files) unchanged. -/
theorem c5_no_duplicate_pending (backup_folder : String)
    (cfg : SubmissionsManagerConfig) (st : ManagerState) (events : List BusEvent)
    (hev : ∀ e ∈ events, e.isReady = true)
    (hb : NoDupIds st.benchmark_q) (hp : NoDupIds st.proof_q) :
    NoDupIds (run backup_folder cfg st events).benchmark_q
    ∧ NoDupIds (run backup_folder cfg st events).proof_q
    ∧ (∀ (id : String) (root : MerkleHash) (nonces : List Int),
        (st.benchmark_q.any fun x => x.request.benchmarkId? == some id) = true →
        on_benchmark_ready backup_folder st id root nonces = st)
    ∧ (∀ (id : String) (proofs : List MerkleProof),
        (st.proof_q.any fun x => x.request.benchmarkId? == some id) = true →
        on_proof_ready backup_folder st id proofs = st) := by
  obtain ⟨h1, h2⟩ := ready_run_nodup backup_folder cfg events st hev hb hp
  refine ⟨h1, h2, ?_, ?_⟩
  · intro id root nonces hdup
    rw [on_benchmark_ready, if_pos hdup]
  · intro id proofs hdup
    rw [on_proof_ready, if_pos hdup]

/-- C5 witness: with benchmark b1 already pending, a second
benchmark_ready for b1 is a no-op on the whole state. -/
theorem c5_witness :
    on_benchmark_ready "backup"
        ⟨[], [⟨0, 0, .benchmark ⟨"b1", "r", []⟩⟩], [],
          [("backup/benchmark/b1.json",
            SubmitBenchmarkRequest.to_dict ⟨"b1", "r", []⟩)]⟩
        "b1" "r2" [7]
      = ⟨[], [⟨0, 0, .benchmark ⟨"b1", "r", []⟩⟩], [],
          [("backup/benchmark/b1.json",
            SubmitBenchmarkRequest.to_dict ⟨"b1", "r", []⟩)]⟩ := by
  have h := (c5_no_duplicate_pending "backup" ⟨false, none, 0⟩
      ⟨[], [⟨0, 0, .benchmark ⟨"b1", "r", []⟩⟩], [],
        [("backup/benchmark/b1.json",
          SubmitBenchmarkRequest.to_dict ⟨"b1", "r", []⟩)]⟩
      [] (by simp)
      (by intro id
          exact List.length_filter_le _ _)
      (by intro id
          simp)).2.2.1
  exact h "b1" "r2" [7] rfl

/-- C8: every pending submission wraps one of the three request
variants, so the isinstance chain of submit always resolves a category
and the ValueError branch (modelled as the none result) is unreachable
for any item dequeued by on_update: submit always returns a result. -/
theorem c8_no_invalid_request_type (cfg cfg2 : SubmissionsManagerConfig)
    (now : Int) (st st2 : ManagerState) (status : Int) (text : String)
    (respTime : Int) (ty : SubmissionType) (s : PendingSubmission)
    (_hdeq : (ty, s) ∈ (on_update cfg now st).2) :
    (submit cfg2 st2 s status text respTime).isSome = true := by
  cases hreq : s.request <;>
    by_cases h200 : status == 200 <;>
      simp [submit, submissionTypeOf, hreq, h200]

/-- C8 witness: the single benchmark item dequeued at time 7 is accepted
by submit (no ValueError) for a concrete 503 response. -/
theorem c8_witness :
    (submit ⟨false, none, 5⟩ ⟨[], [], [], []⟩
      ⟨0, 0, .benchmark ⟨"b1", "r", []⟩⟩ 503 "err" 7).isSome = true :=
  c8_no_invalid_request_type ⟨false, none, 5⟩ ⟨false, none, 5⟩ 7
    ⟨[], [⟨0, 0, .benchmark ⟨"b1", "r", []⟩⟩], [], []⟩ ⟨[], [], [], []⟩
    503 "err" 7 .benchmark ⟨0, 0, .benchmark ⟨"b1", "r", []⟩⟩
    (by simp [on_update, tickQueue])

/-- Every queue item has retries strictly below N. -/
def RetriesBounded (N : Int) (st : ManagerState) : Prop :=
  ∀ ty : SubmissionType, ∀ s ∈ st.queueOf ty, s.retries < N

theorem retryCond_cap (cfg : SubmissionsManagerConfig) (s : PendingSubmission)
    (status N : Int) (hr : retryCond cfg s status = true)
    (hN : cfg.max_retries = some N) : s.retries + 1 < N := by
  rcases ((retryCond_iff cfg s status).mp hr).2 with hnone | ⟨n, hn, hlt⟩
  · rw [hN] at hnone
    cases hnone
  · rw [hN] at hn
    injection hn with hn2
    omega

theorem submissionTypeOf_total (r : SubmissionRequest) :
    ∃ ty, submissionTypeOf r = some ty := by
  cases r <;> exact ⟨_, rfl⟩

theorem submit_out_bounded (cfg : SubmissionsManagerConfig) (N : Int)
    (acc out : ManagerState) (s : PendingSubmission) (status : Int)
    (text : String) (respTime : Int) (evs : List EmittedEvent)
    (hN : cfg.max_retries = some N) (hacc : RetriesBounded N acc)
    (hsub : submit cfg acc s status text respTime = some (out, evs)) :
    RetriesBounded N out := by
  obtain ⟨ty, hty⟩ := submissionTypeOf_total s.request
  by_cases h200 : status = 200
  · simp [submit, hty, h200] at hsub
    rw [← hsub.1]
    exact hacc
  · rw [submit_non200 cfg acc s ty status text respTime hty h200] at hsub
    by_cases hr : retryCond cfg s status
    · rw [if_pos hr] at hsub
      have hout : out = acc.setQueue ty (acc.queueOf ty ++
          [{ s with retries := s.retries + 1, last_retry_time := respTime }]) := by
        have := congrArg Prod.fst (Option.some.inj hsub)
        exact this.symm
      subst hout
      intro ty2 x hx
      by_cases hty2 : ty2 = ty
      · subst hty2
        rw [queueOf_setQueue_self] at hx
        rcases List.mem_append.mp hx with hold | hnew
        · exact hacc ty2 x hold
        · have hx2 : x = { s with retries := s.retries + 1, last_retry_time := respTime } := by
            simpa using hnew
          rw [hx2]
          exact retryCond_cap cfg s status N hr hN
      · rw [queueOf_setQueue_other acc ty ty2 _ hty2] at hx
        exact hacc ty2 x hx
    · rw [if_neg hr] at hsub
      have hout : out = acc := by
        have := congrArg Prod.fst (Option.some.inj hsub)
        exact this.symm
      rw [hout]
      exact hacc

theorem foldl_submit_bounded (cfg : SubmissionsManagerConfig) (N : Int)
    (hN : cfg.max_retries = some N)
    (responses : SubmissionType → Int × String × Int)
    (items : List (SubmissionType × PendingSubmission)) (acc : ManagerState)
    (hacc : RetriesBounded N acc) :
    RetriesBounded N
      (items.foldl
        (fun acc item =>
          let r := responses item.1
          match submit cfg acc item.2 r.1 r.2.1 r.2.2 with
          | some out => out.1
          | none => acc)
        acc) := by
  induction items generalizing acc with
  | nil => exact hacc
  | cons item rest ih =>
    rw [List.foldl_cons]
    apply ih
    rcases hsub : submit cfg acc item.2 (responses item.1).1 (responses item.1).2.1
        (responses item.1).2.2 with _ | out
    · simpa [hsub] using hacc
    · have hbd := submit_out_bounded cfg N acc out.1 item.2 (responses item.1).1
        (responses item.1).2.1 (responses item.1).2.2 out.2 hN hacc
        (by rw [hsub])
      simpa [hsub] using hbd

theorem on_new_block_precommit_q (backup_folder : String)
    (cfg : SubmissionsManagerConfig) (st : ManagerState)
    (precommits benchmarks proofs : List String) :
    (on_new_block backup_folder cfg st precommits benchmarks proofs).precommit_q
      = (if cfg.clear_precommits_submission_on_new_block then []
         else st.precommit_q) := by
  by_cases hc : cfg.clear_precommits_submission_on_new_block <;>
    simp [on_new_block, hc]

theorem mem_on_new_block (backup_folder : String) (cfg : SubmissionsManagerConfig)
    (st : ManagerState) (precommits benchmarks proofs : List String)
    (ty : SubmissionType) (s : PendingSubmission)
    (hs : s ∈ (on_new_block backup_folder cfg st precommits benchmarks proofs).queueOf ty) :
    s ∈ st.queueOf ty := by
  cases ty with
  | precommit =>
    rw [show (on_new_block backup_folder cfg st precommits benchmarks proofs).queueOf
          .precommit
        = (on_new_block backup_folder cfg st precommits benchmarks proofs).precommit_q
      from rfl, on_new_block_precommit_q] at hs
    by_cases hc : cfg.clear_precommits_submission_on_new_block
    · rw [if_pos hc] at hs
      cases hs
    · rw [if_neg hc] at hs
      exact hs
  | benchmark =>
    rw [show (on_new_block backup_folder cfg st precommits benchmarks proofs).queueOf
          .benchmark
        = (on_new_block backup_folder cfg st precommits benchmarks proofs).benchmark_q
      from rfl, on_new_block_benchmark_q] at hs
    exact (List.mem_filter.mp hs).1
  | proof =>
    rw [show (on_new_block backup_folder cfg st precommits benchmarks proofs).queueOf
          .proof
        = (on_new_block backup_folder cfg st precommits benchmarks proofs).proof_q
      from rfl, on_new_block_proof_q] at hs
    exact (List.mem_filter.mp hs).1

theorem mem_on_update (cfg : SubmissionsManagerConfig) (now : Int)
    (st : ManagerState) (ty : SubmissionType) (s : PendingSubmission)
    (hs : s ∈ (on_update cfg now st).1.queueOf ty) : s ∈ st.queueOf ty := by
  cases ty with
  | precommit => exact tickQueue_mem cfg now st.precommit_q s hs
  | benchmark => exact tickQueue_mem cfg now st.benchmark_q s hs
  | proof => exact tickQueue_mem cfg now st.proof_q s hs

theorem mem_on_precommit_ready (st : ManagerState) (settings : BenchmarkSettings)
    (n : Int) (ty : SubmissionType) (s : PendingSubmission)
    (hs : s ∈ (on_precommit_ready st settings n).queueOf ty) :
    s ∈ st.queueOf ty ∨ s.retries = 0 := by
  cases ty with
  | precommit =>
    rcases List.mem_append.mp hs with hold | hnew
    · exact Or.inl hold
    · right
      have : s = ⟨0, 0, .precommit ⟨settings, n⟩⟩ := by simpa using hnew
      rw [this]
  | benchmark => exact Or.inl hs
  | proof => exact Or.inl hs

theorem mem_on_benchmark_ready (backup_folder : String) (st : ManagerState)
    (id : String) (root : MerkleHash) (nonces : List Int)
    (ty : SubmissionType) (s : PendingSubmission)
    (hs : s ∈ (on_benchmark_ready backup_folder st id root nonces).queueOf ty) :
    s ∈ st.queueOf ty ∨ s.retries = 0 := by
  by_cases hdup : st.benchmark_q.any (fun x => x.request.benchmarkId? == some id)
  · rw [on_benchmark_ready, if_pos hdup] at hs
    exact Or.inl hs
  · rw [on_benchmark_ready, if_neg hdup] at hs
    cases ty with
    | precommit => exact Or.inl hs
    | benchmark =>
      rcases List.mem_append.mp hs with hold | hnew
      · exact Or.inl hold
      · right
        have : s = ⟨0, 0, .benchmark ⟨id, root, nonces⟩⟩ := by simpa using hnew
        rw [this]
    | proof => exact Or.inl hs

theorem mem_on_proof_ready (backup_folder : String) (st : ManagerState)
    (id : String) (proofs : List MerkleProof)
    (ty : SubmissionType) (s : PendingSubmission)
    (hs : s ∈ (on_proof_ready backup_folder st id proofs).queueOf ty) :
    s ∈ st.queueOf ty ∨ s.retries = 0 := by
  by_cases hdup : st.proof_q.any (fun x => x.request.benchmarkId? == some id)
  · rw [on_proof_ready, if_pos hdup] at hs
    exact Or.inl hs
  · rw [on_proof_ready, if_neg hdup] at hs
    cases ty with
    | precommit => exact Or.inl hs
    | benchmark => exact Or.inl hs
    | proof =>
      rcases List.mem_append.mp hs with hold | hnew
      · exact Or.inl hold
      · right
        have : s = ⟨0, 0, .proof ⟨id, proofs⟩⟩ := by simpa using hnew
        rw [this]

theorem step_bounded (backup_folder : String) (cfg : SubmissionsManagerConfig)
    (N : Int) (st : ManagerState) (e : BusEvent)
    (hN : cfg.max_retries = some N) (h0 : 0 < N)
    (h : RetriesBounded N st) : RetriesBounded N (step backup_folder cfg st e) := by
  cases e with
  | precommitReady settings n =>
    intro ty s hs
    rcases mem_on_precommit_ready st settings n ty s hs with hold | hzero
    · exact h ty s hold
    · rw [hzero]
      exact h0
  | benchmarkReady id root nonces =>
    intro ty s hs
    rcases mem_on_benchmark_ready backup_folder st id root nonces ty s hs with hold | hzero
    · exact h ty s hold
    · rw [hzero]
      exact h0
  | proofReady id proofs =>
    intro ty s hs
    rcases mem_on_proof_ready backup_folder st id proofs ty s hs with hold | hzero
    · exact h ty s hold
    · rw [hzero]
      exact h0
  | newBlock precommits benchmarks proofs =>
    intro ty s hs
    exact h ty s (mem_on_new_block backup_folder cfg st precommits benchmarks proofs ty s hs)
  | update now responses =>
    exact foldl_submit_bounded cfg N hN responses (on_update cfg now st).2
      (on_update cfg now st).1
      (fun ty s hs => h ty s (mem_on_update cfg now st ty s hs))

theorem restoreDir_zero_bookkeeping (backup_folder submission_type : String)
    (parse : Json → Option SubmissionRequest) (dir : DirListing)
    (subs : List PendingSubmission) (log : List String)
    (h : restoreDir backup_folder submission_type parse dir = some (subs, log)) :
    ∀ s ∈ subs, s.retries = 0 ∧ s.last_retry_time = 0 := by
  induction dir generalizing subs log with
  | nil =>
    simp [restoreDir] at h
    simp [h.1]
  | cons f rest ih =>
    by_cases hj : strEndsWith f.1 ".json"
    · rcases hp : parse f.2 with _ | req
      · simp [restoreDir, hj, hp] at h
      rcases hr : restoreDir backup_folder submission_type parse rest with _ | pl
      · simp [restoreDir, hj, hp, hr] at h
      simp [restoreDir, hj, hp, hr] at h
      intro s hs
      rw [← h.1] at hs
      rcases List.mem_cons.mp hs with heq | hmem
      · rw [heq]
        exact ⟨rfl, rfl⟩
      · exact ih pl.1 pl.2 (by simpa using hr) s hmem
    · simp [restoreDir, hj] at h
      exact ih subs log h

/-- C10: with a configured retry cap N ≥ 1, every pending submission in
every queue keeps retries strictly below N across any event sequence
(items enter with retries 0 and a 5xx re-enqueue requires the
incremented count to stay below N), and restored submissions re-enter
with retries and last_retry_time both 0. -/
theorem c10_retries_below_cap (backup_folder : String)
    (cfg : SubmissionsManagerConfig) (N : Int) (st : ManagerState)
    (events : List BusEvent)
    (hN : cfg.max_retries = some N) (h1 : 1 ≤ N)
    (hst : RetriesBounded N st) :
    RetriesBounded N (run backup_folder cfg st events)
    ∧ (∀ (benchDir proofDir : DirListing) (res : RestoreResult),
        restorePendingSubmissions backup_folder benchDir proofDir = some res →
        (∀ s ∈ res.benchmark_q, s.retries = 0 ∧ s.last_retry_time = 0)
        ∧ (∀ s ∈ res.proof_q, s.retries = 0 ∧ s.last_retry_time = 0)) := by
  constructor
  · induction events generalizing st with
    | nil => exact hst
    | cons e rest ih =>
      rw [run_cons]
      exact ih (step backup_folder cfg st e)
        (step_bounded backup_folder cfg N st e hN (by omega) hst)
  · intro benchDir proofDir res hres
    rcases hb : restoreDir backup_folder "benchmark"
        (fun d => (SubmitBenchmarkRequest.from_dict d).map .benchmark) benchDir
      with _ | b
    · simp [restorePendingSubmissions, hb] at hres
    rcases hp : restoreDir backup_folder "proof"
        (fun d => (SubmitProofRequest.from_dict d).map .proof) proofDir with _ | p
    · simp [restorePendingSubmissions, hb, hp] at hres
    have hres2 : res = ⟨b.1, p.1, b.2 ++ p.2⟩ := by
      simp [restorePendingSubmissions, hb, hp] at hres
      exact hres.symm
    rw [hres2]
    exact ⟨restoreDir_zero_bookkeeping backup_folder "benchmark" _ benchDir b.1 b.2
        (by simpa using hb),
      restoreDir_zero_bookkeeping backup_folder "proof" _ proofDir p.1 p.2
        (by simpa using hp)⟩

/-- C10 witness: with cap 2, after one accepted benchmark and one failing
tick the surviving queue member has retries 1 < 2. -/
theorem c10_witness :
    RetriesBounded 2
      (run "backup" ⟨false, some 2, 5⟩
        (singleBenchState ⟨"b1", "r", []⟩) (failEvents 5 1)) :=
  (c10_retries_below_cap "backup" ⟨false, some 2, 5⟩ 2
    (singleBenchState ⟨"b1", "r", []⟩) (failEvents 5 1) rfl (by omega)
    (by intro ty s hs
        cases ty <;> simp [singleBenchState, ManagerState.queueOf] at hs
        simp [hs])).1

end TigSubmissions
